import Mathlib

/-!
Verification of the greenhouse-screener recruiting console against its
natural-language specification.

The development shallowly embeds the server-side logic of the repository:
the embedding index (cosine similarity, candidate upsert), the two-phase
LLM highlights pipeline (batching, final ranking, tier assignment), the
ATS client's 429 retry loop, the full-collection pagination helper, the
screening response parser, and the bulk-reject route.

JavaScript numbers are modelled as rationals (`ℚ`) except in the cosine
similarity development, where real numbers (`ℝ`) are used so that square
roots and the Cauchy–Schwarz inequality are available.  `NaN` (which in
the source arises only from `Number(...)` coercions of non-numeric JSON
values) is modelled by `Option ℚ` with `none` playing the role of `NaN`.
LLM and HTTP responses are oracle parameters: the functions under test are
embedded as pure functions of those oracles.
-/

namespace GreenhouseScreener

/-! ### Cosine similarity (embeddings service)

Embeds `cosineSimilarity` from the embeddings service:

```js
function cosineSimilarity(a, b) {
  if (a.length !== b.length) return 0;
  let dotProduct = 0; let normA = 0; let normB = 0;
  for (let i = 0; i < a.length; i++) {
    dotProduct += a[i] * b[i]; normA += a[i] * a[i]; normB += b[i] * b[i];
  }
  const magnitude = Math.sqrt(normA) * Math.sqrt(normB);
  return magnitude === 0 ? 0 : dotProduct / magnitude;
}
```
-/

/-- Running sum `dotProduct` of the loop: pairwise products of the two
vectors.  For equal-length vectors this is exactly the loop's result. -/
def dotProduct (a b : List ℝ) : ℝ :=
  (List.zipWith (fun x y => x * y) a b).sum

/-- Running sums `normA` / `normB` of the loop: sum of squares of a vector. -/
def normSq (a : List ℝ) : ℝ :=
  (a.map (fun x => x * x)).sum

/-- The vector magnitude `Math.sqrt(normA)` used by the similarity guard. -/
noncomputable def magnitude (a : List ℝ) : ℝ :=
  Real.sqrt (normSq a)

/-- Embedding of `cosineSimilarity`.  Mismatched lengths score `0`; a zero
product of magnitudes is guarded to `0`; otherwise dot product over the
product of magnitudes. -/
noncomputable def cosineSimilarity (a b : List ℝ) : ℝ :=
  if a.length ≠ b.length then 0
  else
    let mag := magnitude a * magnitude b
    if mag = 0 then 0 else dotProduct a b / mag

/-! ### Embedding index upsert (`indexCandidate`)

Embeds the index-mutation path of `indexCandidate` from the embeddings
service.  The on-disk index is modelled as `Option JobIndex` (`none` for a
missing or corrupt file, as `loadIndex` returns `null` there).  The
embedding model is an oracle `embed : String → List ℝ`, and timestamps are
oracle strings.  `String.take` models the JS `slice(0, n)` (they agree on
the texts considered here; JS counts UTF-16 units). -/

structure EmbeddingRecord where
  application_id : ℚ
  candidate_name : String
  text : String
  embedding : List ℝ
  indexed_at : String

structure JobIndex where
  job_id : ℚ
  job_title : String
  indexed_at : String
  records : List EmbeddingRecord

/-- Model of JS `Array.prototype.findIndex` (with `none` for `-1`). -/
def findIndex? {α : Type} (p : α → Bool) : List α → Option ℕ
  | [] => none
  | x :: xs => if p x then some 0 else (findIndex? p xs).map (· + 1)

/-- The replace-or-append step of `indexCandidate`:
`findIndex` on `application_id`, then `records[existingIdx] = record` or
`records.push(record)`. -/
def upsertRecord (records : List EmbeddingRecord) (r : EmbeddingRecord) :
    List EmbeddingRecord :=
  match findIndex? (fun x => x.application_id == r.application_id) records with
  | some i => records.set i r
  | none => records ++ [r]

/-- Model of JS `String.prototype.trim`: strip whitespace from both ends.
Defined on the character list so that it computes by structural recursion. -/
def jsTrim (s : String) : String :=
  ⟨((s.data.dropWhile Char.isWhitespace).reverse.dropWhile
      Char.isWhitespace).reverse⟩

/-- The searchable text blob: name, resume and formatted Q&A joined and
trimmed (`${candidateName}\n\n${resumeText}\n\n${answerText}`.trim()`).
The JS guard `!fullText || fullText.length < 50` is equivalent to
`fullText.length < 50` since the empty string has length `0`. -/
def combinedText (candidateName resumeText : String)
    (answers : List (String × String)) : String :=
  let answerText := String.intercalate "\n"
    (answers.map (fun a => a.1 ++ ": " ++ a.2))
  jsTrim (candidateName ++ "\n\n" ++ resumeText ++ "\n\n" ++ answerText)

/-- The record built by `indexCandidate`: truncated-text preview, embedding
of the truncated text, and the upsert timestamp. -/
def mkEmbeddingRecord (applicationId : ℚ) (candidateName : String)
    (truncatedText : String) (now : String) (embed : String → List ℝ) :
    EmbeddingRecord :=
  { application_id := applicationId
    candidate_name := candidateName
    text := truncatedText.take 500 ++ "..."
    embedding := embed truncatedText
    indexed_at := now }

/-- Embedding of `indexCandidate` as a state transformer on the job index. -/
def indexCandidate (st : Option JobIndex) (jobId : ℚ) (jobTitle : String)
    (applicationId : ℚ) (candidateName resumeText : String)
    (answers : List (String × String)) (now : String)
    (embed : String → List ℝ) : Option JobIndex :=
  let fullText := combinedText candidateName resumeText answers
  if fullText.length < 50 then st
  else
    let truncatedText := fullText.take 8000
    let index := st.getD
      { job_id := jobId, job_title := jobTitle, indexed_at := now, records := [] }
    let record := mkEmbeddingRecord applicationId candidateName truncatedText
      now embed
    some { index with records := upsertRecord index.records record, indexed_at := now }

/-- Records stored in an index state. -/
def indexRecords (st : Option JobIndex) : List EmbeddingRecord :=
  ((st.map (·.records)).getD [])

/-- Application identifiers stored in an index state, in order. -/
def indexIds (st : Option JobIndex) : List ℚ :=
  (indexRecords st).map (·.application_id)

/-- Record count of an index state. -/
def recordCount (st : Option JobIndex) : ℕ :=
  (indexRecords st).length

/-! ### JSON values and JavaScript coercions

The LLM services parse model responses with `JSON.parse` and then coerce
fields dynamically.  `Json` models parsed JSON values; the oracle input to
a parser is `Option Json`, with `none` standing for "the response text is
not valid JSON" (`JSON.parse` threw).  The `js*` helpers model the
JavaScript coercions the services apply to parsed values.  Abstractions,
each irrelevant to the verified flows: `ToNumber` on non-integer numeric
strings and on arrays/objects is mapped to `none` (`NaN`); `ToString` of a
non-integer number or an array is abbreviated. -/

inductive Json where
  | null
  | bool (b : Bool)
  | num (x : ℚ)
  | str (s : String)
  | arr (elems : List Json)
  | obj (fields : List (String × Json))

/-- Property access `value.key`: `none` models `undefined` (non-objects and
absent keys).  On duplicate keys the last one wins, as after `JSON.parse`. -/
def Json.getField : Json → String → Option Json
  | .obj fields, k => ((fields.reverse).find? (fun f => f.1 == k)).map (·.2)
  | _, _ => none

/-- Digit-string value, `none` if any character is not a decimal digit. -/
def digitsToNat? (cs : List Char) : Option ℕ :=
  if cs.isEmpty then none
  else if cs.all Char.isDigit then
    some (cs.foldl (fun n c => 10 * n + (c.toNat - 48)) 0)
  else none

/-- JS `ToNumber` on a string: empty/whitespace is `0`, signed integer
numerals parse, everything else is `NaN` (`none`). -/
def jsStrToNumber (s : String) : Option ℚ :=
  match (jsTrim s).data with
  | [] => some 0
  | '-' :: rest => (digitsToNat? rest).map (fun n => -(n : ℚ))
  | '+' :: rest => (digitsToNat? rest).map (fun n => (n : ℚ))
  | t => (digitsToNat? t).map (fun n => (n : ℚ))

/-- JS `Number(value)` on a parsed JSON value; `none` models `NaN`. -/
def jsToNumber : Json → Option ℚ
  | .null => some 0
  | .bool b => some (if b then 1 else 0)
  | .num x => some x
  | .str s => jsStrToNumber s
  | .arr _ => none
  | .obj _ => none

/-- JS `Number(value.key)`: an absent field (`undefined`) is `NaN`. -/
def jsNumberOfField (f : Option Json) : Option ℚ :=
  f.bind jsToNumber

/-- Integer-exact JS number formatting. -/
def jsNumToString (x : ℚ) : String :=
  if x.den = 1 then toString x.num else toString x

/-- JS `String(value)` on a parsed JSON value. -/
def jsToString : Json → String
  | .null => "null"
  | .bool true => "true"
  | .bool false => "false"
  | .num x => jsNumToString x
  | .str s => s
  | .arr _ => ""
  | .obj _ => "[object Object]"

/-- JS truthiness of a parsed JSON value. -/
def jsTruthy : Json → Bool
  | .null => false
  | .bool b => b
  | .num x => x != 0
  | .str s => s != ""
  | .arr _ => true
  | .obj _ => true

/-- JS `String(value.key || '')`: falsy or absent values give `""`. -/
def jsStringOrEmpty (f : Option Json) : String :=
  match f with
  | some v => if jsTruthy v then jsToString v else ""
  | none => ""

/-- JS `Array.isArray(v) ? v.map(String) : []`. -/
def jsStringArray (f : Option Json) : List String :=
  match f with
  | some (.arr xs) => xs.map jsToString
  | _ => []

/-- JS `toUpperCase`, defined on the character list so that it computes. -/
def jsToUpper (s : String) : String :=
  ⟨s.data.map Char.toUpper⟩

/-! ### Screening response parsing (`parseScreeningResponse` / `screenApplications`)

The service extracts the response text, strips an optional fenced code
block, and calls `JSON.parse` — that whole stage is the `Option Json`
oracle input (`none` when `JSON.parse` throws).  The per-item coercion
inside the same `try` block can itself throw a `TypeError` (optional
chaining does not guard a non-nullish, non-string `recommendation` or
`confidence`, and a `null` array item fails property access), which the
`catch` turns into the same hard failure; `coerceScreeningResult` returns
`none` in exactly those cases.  `screenApplications` returns the parsed
results together with the missing-identifier list it computes and reports
via `console.warn`. -/

structure ScreeningResult where
  application_id : Option ℚ
  recommendation : Option String
  confidence : Option String
  summary : String
  key_factors : List String
  concerns : List String
  reasoning : String
  deriving DecidableEq

/-- Model of `(field as string)?.toUpperCase()`: `some none` for a nullish
field (the optional chain yields `undefined`), `some (some s.toUpper)` for a
string, and `none` (a thrown `TypeError`) otherwise. -/
def jsUpperField : Option Json → Option (Option String)
  | none => some none
  | some .null => some none
  | some (.str s) => some (some (jsToUpper s))
  | some _ => none

/-- Field coercions applied to one parsed verdict object; `none` models a
thrown `TypeError`. -/
def coerceScreeningResult (j : Json) : Option ScreeningResult :=
  match j with
  | .null => none
  | _ =>
    match jsUpperField (j.getField "recommendation"),
        jsUpperField (j.getField "confidence") with
    | some recommendation, some confidence =>
      some { application_id := jsNumberOfField (j.getField "application_id")
             recommendation := recommendation
             confidence := confidence
             summary := jsStringOrEmpty (j.getField "summary")
             key_factors := jsStringArray (j.getField "key_factors")
             concerns := jsStringArray (j.getField "concerns")
             reasoning := jsStringOrEmpty (j.getField "reasoning") }
    | _, _ => none

/-- The `Array.isArray(parsed) ? parsed : [parsed]` wrapping. -/
def jsonItems : Json → List Json
  | .arr xs => xs
  | j => [j]

/-- The `results.map(...)` loop: first coercion failure fails the batch. -/
def coerceAll : List Json → Option (List ScreeningResult)
  | [] => some []
  | j :: js =>
    match coerceScreeningResult j, coerceAll js with
    | some r, some rs => some (r :: rs)
    | _, _ => none

/-- Embedding of `parseScreeningResponse`. -/
def parseScreeningResponse (parsed : Option Json) :
    Except String (List ScreeningResult) :=
  match parsed with
  | none => .error "Failed to parse screening response"
  | some j =>
    match coerceAll (jsonItems j) with
    | some rs => .ok rs
    | none => .error "Failed to parse screening response"

/-- Embedding of the response-handling tail of `screenApplications`: parse,
then compute the identifiers of submitted applications missing from the
response (reported via `console.warn`); both the results and that warned
list are returned. -/
def screenApplications (appIds : List ℚ) (parsed : Option Json) :
    Except String (List ScreeningResult × List ℚ) :=
  match parseScreeningResponse parsed with
  | .error e => .error e
  | .ok results =>
    let resultIds := results.map (·.application_id)
    let missingIds := appIds.filter (fun id => !(resultIds.contains (some id)))
    .ok (results, missingIds)

/-- One well-formed verdict object as the model would return it. -/
def mkVerdictJson (i : ℚ) : Json :=
  Json.obj [("application_id", Json.num i),
    ("recommendation", Json.str "green"),
    ("confidence", Json.str "high"),
    ("summary", Json.str "ok"),
    ("key_factors", Json.arr []),
    ("concerns", Json.arr []),
    ("reasoning", Json.str "r")]

/-- The coerced form of `mkVerdictJson`. -/
def mkVerdict (i : ℚ) : ScreeningResult :=
  { application_id := some i
    recommendation := some "GREEN"
    confidence := some "HIGH"
    summary := "ok"
    key_factors := []
    concerns := []
    reasoning := "r" }

/-! ### Highlights final ranking (`rankWinners`)

Embeds the response-processing tail of `rankWinners`: the parsed final
ranking (a JSON array, the non-array case throws) is mapped through the
dynamic field coercions, enriched with candidate data via a `Map` keyed by
each phase-1 winner's raw `application_id` value, and sorted by
`(a, b) => a.rank - b.rank`.  The sort is modelled by a stable insertion
sort: ECMAScript `Array.prototype.sort` is stable, ascending in the
comparator, and treats a `NaN` comparator value as a tie. -/

structure CandidateData where
  application_id : ℚ
  candidate_id : ℚ
  candidate_name : String
  greenhouse_url : String
  resume_text : String
  answers : List (String × String)
  deriving DecidableEq

/-- A phase-1 winner as pushed by `generateHighlights`: the raw parsed
batch-response item spread together with the resolved candidate
(`{ ...winner, candidate }`). -/
structure EnrichedWinner where
  raw : Json
  candidate : CandidateData

inductive Tier where
  | TOP
  | STRONG
  | GOOD
  deriving DecidableEq

/-- The tier coercion `['TOP', 'STRONG', 'GOOD'].includes(item.tier)
? item.tier : 'GOOD'`: only those three exact strings pass through,
everything else (absent field included) becomes `GOOD`. -/
def tierOfField : Option Json → Tier
  | some (.str s) =>
    if s = "TOP" then .TOP else if s = "STRONG" then .STRONG else .GOOD
  | _ => .GOOD

structure HighlightedCandidate where
  rank : Option ℚ
  application_id : Option ℚ
  candidate_id : ℚ
  candidate_name : String
  greenhouse_url : String
  score : Option ℚ
  summary : String
  tier : Tier
  deriving DecidableEq

/-- The `candidateMap.get(Number(item.application_id))` lookup: the `Map`
is keyed by each winner's raw `application_id` field (last entry wins on
duplicate keys), and a number key only matches a stored JSON number of the
same value; a `NaN` key (`none`) matches nothing. -/
def lookupCandidate (winners : List EnrichedWinner) : Option ℚ → Option CandidateData
  | none => none
  | some q =>
    ((winners.reverse).find? (fun w =>
      match w.raw.getField "application_id" with
      | some (Json.num x) => x == q
      | _ => false)).map (·.candidate)

/-- The per-item construction of a `HighlightedCandidate` in `rankWinners`. -/
def toHighlighted (winners : List EnrichedWinner) (item : Json) :
    HighlightedCandidate :=
  let candidate := lookupCandidate winners
    (jsNumberOfField (item.getField "application_id"))
  { rank := jsNumberOfField (item.getField "rank")
    application_id := jsNumberOfField (item.getField "application_id")
    candidate_id := (candidate.map (·.candidate_id)).getD 0
    candidate_name :=
      match candidate with
      | some c => if c.candidate_name = "" then "Unknown" else c.candidate_name
      | none => "Unknown"
    greenhouse_url := (candidate.map (·.greenhouse_url)).getD ""
    score := jsNumberOfField (item.getField "score")
    summary := jsStringOrEmpty (item.getField "summary")
    tier := tierOfField (item.getField "tier") }

/-- Comparator order of `(a, b) => a.rank - b.rank`: on numeric ranks the
usual order, and any `NaN` rank compares as a tie in both directions. -/
def rankLeB (a b : HighlightedCandidate) : Bool :=
  match a.rank, b.rank with
  | some x, some y => x ≤ y
  | _, _ => true

def rankLe (a b : HighlightedCandidate) : Prop :=
  rankLeB a b = true

instance : DecidableRel rankLe := fun a b => Bool.decEq (rankLeB a b) true

/-- Embedding of the successful path of `rankWinners` on an already-parsed
array: coerce every item, then stable-sort ascending by returned rank. -/
def rankWinnersPost (winners : List EnrichedWinner) (parsed : List Json) :
    List HighlightedCandidate :=
  List.insertionSort rankLe (parsed.map (toHighlighted winners))

/-! ### ATS client rate-limit retry (`GreenhouseAPI.request`)

Embeds the retry loop of the private `request` method.  The HTTP layer is
an oracle `responses : ℕ → HttpResponse` giving the outcome of each
attempt (attempt 0 is the initial call).  The embedding returns the final
outcome together with the list of backoff delays slept, in order. -/

structure HttpResponse where
  ok : Bool
  status : ℕ
  body : String

/-- Retry budget of `request` (`const maxRetries = 5`). -/
def maxRetries : ℕ := 5

/-- Embedding of `request` from retry counter `retries` onward: a non-ok
response with status 429 and `retries < maxRetries` sleeps
`min(1000 * 2^(retries+1), 30000)` ms and recurses with `retries + 1`; any
other non-ok response throws the classified error; an ok response returns
its body (`response.json()` abstracted as the body string). -/
def requestFrom (responses : ℕ → HttpResponse) (retries : ℕ) :
    Except String String × List ℕ :=
  let r := responses retries
  if r.ok then (Except.ok r.body, [])
  else if r.status = 429 ∧ retries < maxRetries then
    let backoffMs := min (1000 * 2 ^ (retries + 1)) 30000
    let rest := requestFrom responses (retries + 1)
    (rest.1, backoffMs :: rest.2)
  else
    (Except.error ("Greenhouse API error: " ++ toString r.status ++ " - "
      ++ r.body), [])
  termination_by maxRetries - retries
  decreasing_by simp only [maxRetries] at *; omega

/-- A `request` call starts with `retries = 0`. -/
def request (responses : ℕ → HttpResponse) : Except String String × List ℕ :=
  requestFrom responses 0

/-- A mock source that returns 429 twice and then succeeds. -/
def twice429 : ℕ → HttpResponse := fun i =>
  if i < 2 then { ok := false, status := 429, body := "rate limited" }
  else { ok := true, status := 200, body := "payload" }

/-! ### Full-collection fetch helper (`fetchAllApplicationsLightweight`)

Embeds the pagination loop: starting at page 1, fetch a page, append its
rows, and continue with the next page exactly when `hasMore`, where
`getApplicationsLightweight` computes `hasMore` as
`rawApplications.length === per_page`.  The paginated source is an oracle
`pages : ℕ → List α` (the rows of each page, on the success path — the
inner 429-retry loop is resolved by the oracle; the verified scenario has
no failures).  `fuel` bounds the a-priori unbounded `while (true)` loop and
is irrelevant whenever a short page occurs within it.  The result carries
the accumulated rows and the number of page requests issued. -/

def fetchLoop {α : Type} (pages : ℕ → List α) (perPage : ℕ) :
    ℕ → ℕ → List α × ℕ
  | 0, _ => ([], 0)
  | fuel + 1, page =>
    let result := pages page
    if result.length = perPage then
      let rest := fetchLoop pages perPage fuel (page + 1)
      (result ++ rest.1, rest.2 + 1)
    else (result, 1)

/-- The helper fixes `perPage = 100` and starts at page 1. -/
def fetchAllApplicationsLightweight {α : Type} (pages : ℕ → List α)
    (fuel : ℕ) : List α × ℕ :=
  fetchLoop pages 100 fuel 1

/-- The mock paginated source of the spec scenario: pages of sizes
`[100, 100, 37]`, whose rows are `0..236` in order. -/
def mockPages : ℕ → List ℕ := fun i =>
  if i = 1 then List.range 100
  else if i = 2 then (List.range 100).map (fun n => n + 100)
  else if i = 3 then (List.range 37).map (fun n => n + 200)
  else []

/-! ### Highlights phase 1 (`generateHighlights`)

Embeds the batching arithmetic and the phase-1 loop of
`generateHighlights`.  Each batch's LLM call is an oracle
`batchResp : ℕ → List Json` giving the parsed winners array of batch `i`
(`[]` for a non-array or unparseable response).  The loop runs the batches
in index order (the source processes them strictly sequentially) and pushes
`{ ...winner, candidate }` for every winner whose raw `application_id`
field is a JSON number matching a candidate of that batch (the `Map`
lookup; a non-matching winner is dropped). -/

def BATCH_SIZE : ℕ := 100

/-- The candidate slice of batch `i`
(`candidates.slice(i * BATCH_SIZE, i * BATCH_SIZE + BATCH_SIZE)`). -/
def batchOf (candidates : List CandidateData) (i : ℕ) : List CandidateData :=
  (candidates.drop (i * BATCH_SIZE)).take BATCH_SIZE

/-- `Math.ceil(candidates.length / BATCH_SIZE)`. -/
def numBatches (n : ℕ) : ℕ :=
  (n + BATCH_SIZE - 1) / BATCH_SIZE

/-- `Math.ceil((top_n * 1.5) / numBatches)` (JS `Infinity` for zero
batches never reaches the loop; `ℚ` division by zero gives `0` here). -/
def winnersPerBatch (topN k : ℕ) : ℕ :=
  Nat.ceil ((3 * topN : ℚ) / (2 * k))

/-- The batch `Map` lookup `candidateMap.get(winner.application_id)`: the
raw field value only matches a stored numeric key of the same value; later
duplicate keys overwrite earlier ones. -/
def batchLookup (batch : List CandidateData) (v : Option Json) :
    Option CandidateData :=
  match v with
  | some (Json.num q) => (batch.reverse).find? (fun c => c.application_id == q)
  | _ => none

/-- The phase-1 loop: for each batch in order, enrich the oracle's winners
with their batch candidate and accumulate them. -/
def phase1Winners (candidates : List CandidateData)
    (batchResp : ℕ → List Json) : List EnrichedWinner :=
  (List.range (numBatches candidates.length)).flatMap (fun i =>
    (batchResp i).filterMap (fun item =>
      (batchLookup (batchOf candidates i) (item.getField "application_id")).map
        (fun c => { raw := item, candidate := c })))

/-- A concrete pool of `n` candidates with identifiers `0..n-1`. -/
def mkCandidates (n : ℕ) : List CandidateData :=
  (List.range n).map (fun i =>
    { application_id := (i : ℚ)
      candidate_id := (i : ℚ)
      candidate_name := "c"
      greenhouse_url := ""
      resume_text := ""
      answers := [] })

/-- A concrete set of batch responses over `mkCandidates 250`: batch 0
returns one winner naming candidate 0, the other batches return none. -/
def mkBatchResp : ℕ → List Json := fun i =>
  if i = 0 then
    [Json.obj [("application_id", Json.num 0), ("score", Json.num 80),
      ("summary", Json.str "s")]]
  else []

/-! ### Bulk reject route (`POST /api/applications/bulk-reject`)

Embeds the route handler.  The upstream `rejectApplication` outcome per
identifier is an oracle `rejectOk : ℚ → Bool` (`false` = the call threw).
Each rejection is attempted independently inside `Promise.all`; a failure
is caught per identifier, so the route always answers with the
rejected/failed split.  The concurrent pushes are modelled in submission
order: the oracle fixes each attempt's outcome, and only the membership of
each identifier in exactly one of the two lists is claimed.  The body
checks are modelled as in the source: a missing/non-array or empty
`application_ids` and a falsy `rejection_reason_id` (absent or `0`) answer
400 before any rejection is attempted. -/

inductive BulkRejectResponse where
  | badRequest (error : String)
  | success (rejected failed : List ℚ)
  deriving DecidableEq

/-- Embedding of the bulk-reject handler. -/
def bulkReject (applicationIds : Option (List ℚ))
    (rejectionReasonId : Option ℚ) (rejectOk : ℚ → Bool) :
    BulkRejectResponse :=
  match applicationIds with
  | none => .badRequest "application_ids must be a non-empty array"
  | some ids =>
    if ids.isEmpty then
      .badRequest "application_ids must be a non-empty array"
    else
      match rejectionReasonId with
      | none => .badRequest "rejection_reason_id is required"
      | some rid =>
        if rid = 0 then .badRequest "rejection_reason_id is required"
        else .success (ids.filter rejectOk)
          (ids.filter (fun id => !(rejectOk id)))

/-! ### Theorems -/



lemma normSq_nonneg (a : List ℝ) : 0 ≤ normSq a := by
  unfold normSq
  refine List.sum_nonneg ?_
  intro x hx
  rcases List.mem_map.mp hx with ⟨y, _, rfl⟩
  exact mul_self_nonneg y

lemma magnitude_nonneg (a : List ℝ) : 0 ≤ magnitude a :=
  Real.sqrt_nonneg _

lemma dotProduct_comm (a b : List ℝ) : dotProduct a b = dotProduct b a := by
  unfold dotProduct
  congr 1
  induction a generalizing b with
  | nil => cases b <;> rfl
  | cons x xs ih =>
    cases b with
    | nil => rfl
    | cons y ys => simp [List.zipWith, mul_comm, ih]

lemma dotProduct_self (a : List ℝ) : dotProduct a a = normSq a := by
  unfold dotProduct normSq
  induction a with
  | nil => rfl
  | cons x xs ih => simp [List.zipWith, ih]

/-- Bridge from the list-level dot product to a `Finset.range` sum, to apply
the Cauchy–Schwarz inequality. -/
lemma dotProduct_eq_sum (a b : List ℝ) (h : a.length = b.length) :
    dotProduct a b = ∑ i ∈ Finset.range a.length, a.getD i 0 * b.getD i 0 := by
  unfold dotProduct
  induction a generalizing b with
  | nil => simp
  | cons x xs ih =>
    cases b with
    | nil => simp at h
    | cons y ys =>
      have hlen : xs.length = ys.length := by simpa using h
      simp only [List.zipWith, List.sum_cons, List.length_cons]
      rw [Finset.sum_range_succ']
      simp only [List.getD_cons_succ, List.getD_cons_zero]
      rw [ih ys hlen, add_comm]

lemma normSq_eq_sum (a : List ℝ) :
    normSq a = ∑ i ∈ Finset.range a.length, a.getD i 0 * a.getD i 0 := by
  rw [← dotProduct_self a, dotProduct_eq_sum a a rfl]

lemma dotProduct_map_neg (a b : List ℝ) :
    dotProduct a (b.map Neg.neg) = -dotProduct a b := by
  unfold dotProduct
  induction a generalizing b with
  | nil => simp
  | cons x xs ih =>
    cases b with
    | nil => simp
    | cons y ys => simp [List.zipWith, ih ys]; ring

lemma normSq_map_neg (b : List ℝ) : normSq (b.map Neg.neg) = normSq b := by
  unfold normSq
  induction b with
  | nil => rfl
  | cons y ys ih =>
    simp only [List.map_cons, List.sum_cons, List.map_map] at *
    simp only [neg_mul_neg] at *
    rw [ih]

/-- Cauchy–Schwarz for the list-level sums: the absolute dot product is at
most the product of magnitudes. -/
lemma abs_dotProduct_le (a b : List ℝ) (h : a.length = b.length) :
    |dotProduct a b| ≤ magnitude a * magnitude b := by
  have key : ∀ (u v : List ℝ), u.length = v.length →
      dotProduct u v ≤ magnitude u * magnitude v := by
    intro u v huv
    have hcs := Real.sum_mul_le_sqrt_mul_sqrt (Finset.range u.length)
      (fun i => u.getD i 0) (fun i => v.getD i 0)
    have h1 : ∑ i ∈ Finset.range u.length, (u.getD i 0) ^ 2 = normSq u := by
      rw [normSq_eq_sum]
      exact Finset.sum_congr rfl (fun i _ => sq (u.getD i 0))
    have h2 : ∑ i ∈ Finset.range u.length, (v.getD i 0) ^ 2 = normSq v := by
      rw [normSq_eq_sum, huv]
      exact Finset.sum_congr rfl (fun i _ => sq (v.getD i 0))
    rw [dotProduct_eq_sum u v huv]
    unfold magnitude
    rw [← h1, ← h2]
    exact hcs
  have hpos := key a b h
  have hneg := key a (b.map Neg.neg) (by simpa using h)
  have hmag : magnitude (b.map Neg.neg) = magnitude b := by
    unfold magnitude
    rw [normSq_map_neg]
  rw [dotProduct_map_neg, hmag] at hneg
  rw [abs_le]
  constructor
  · linarith
  · exact hpos

lemma cosineSimilarity_of_ne_length (a b : List ℝ) (h : a.length ≠ b.length) :
    cosineSimilarity a b = 0 := by
  unfold cosineSimilarity
  rw [if_pos h]

lemma cosineSimilarity_of_eq_length (a b : List ℝ) (h : a.length = b.length) :
    cosineSimilarity a b =
      if magnitude a * magnitude b = 0 then 0
      else dotProduct a b / (magnitude a * magnitude b) := by
  unfold cosineSimilarity
  rw [if_neg (by simp [h])]

/-- C6: for equal-length vectors of nonzero magnitude, cosine similarity lies
in `[-1, 1]` and equals `1` on identical vectors; it is symmetric; and
vectors of differing length score exactly `0` (the function is total, so it
never raises). -/
theorem cosineSimilarity_spec (a b : List ℝ) :
    (a.length = b.length → magnitude a ≠ 0 → magnitude b ≠ 0 →
      (-1 ≤ cosineSimilarity a b ∧ cosineSimilarity a b ≤ 1) ∧
      (a = b → cosineSimilarity a b = 1)) ∧
    cosineSimilarity a b = cosineSimilarity b a ∧
    (a.length ≠ b.length → cosineSimilarity a b = 0) := by
  refine ⟨?_, ?_, cosineSimilarity_of_ne_length a b⟩
  · intro hlen ha hb
    have hmagpos : 0 < magnitude a * magnitude b := by
      have h1 := lt_of_le_of_ne (magnitude_nonneg a) (Ne.symm ha)
      have h2 := lt_of_le_of_ne (magnitude_nonneg b) (Ne.symm hb)
      exact mul_pos h1 h2
    have heq := cosineSimilarity_of_eq_length a b hlen
    rw [if_neg (ne_of_gt hmagpos)] at heq
    constructor
    · have habs := abs_dotProduct_le a b hlen
      rw [abs_le] at habs
      constructor
      · rw [heq]
        rw [le_div_iff₀ hmagpos]
        linarith [habs.1]
      · rw [heq]
        rw [div_le_one hmagpos]
        exact habs.2
    · intro hab
      subst hab
      have hsq : magnitude a * magnitude a = normSq a :=
        Real.mul_self_sqrt (normSq_nonneg a)
      rw [heq, dotProduct_self, ← hsq]
      exact div_self (ne_of_gt hmagpos)
  · by_cases hlen : a.length = b.length
    · rw [cosineSimilarity_of_eq_length a b hlen,
        cosineSimilarity_of_eq_length b a hlen.symm,
        dotProduct_comm, mul_comm (magnitude a)]
    · rw [cosineSimilarity_of_ne_length a b hlen,
        cosineSimilarity_of_ne_length b a (fun h => hlen h.symm)]

lemma magnitude_one_zero : magnitude [(1 : ℝ), 0] = 1 := by
  have : normSq [(1 : ℝ), 0] = 1 := by
    unfold normSq
    norm_num
  unfold magnitude
  rw [this, Real.sqrt_one]

/-- Witness for C6: evaluates the theorem on the concrete vectors `[1, 0]`
(identical pair, nonzero magnitude) and a mismatched-length pair. -/
theorem cosineSimilarity_spec_witness :
    cosineSimilarity [(1 : ℝ), 0] [(1 : ℝ), 0] = 1 ∧
    cosineSimilarity [(1 : ℝ)] [(1 : ℝ), 0] = 0 := by
  constructor
  · exact ((cosineSimilarity_spec [(1 : ℝ), 0] [(1 : ℝ), 0]).1 rfl
      (by rw [magnitude_one_zero]; norm_num)
      (by rw [magnitude_one_zero]; norm_num)).2 rfl
  · exact (cosineSimilarity_spec [(1 : ℝ)] [(1 : ℝ), 0]).2.2 (by norm_num)

/-- C10: for equal-length vectors, if either has zero magnitude the
similarity is exactly `0` — the division is guarded, so the score is a
defined real number. -/
theorem cosineSimilarity_zero_magnitude (a b : List ℝ)
    (hlen : a.length = b.length)
    (h : magnitude a = 0 ∨ magnitude b = 0) :
    cosineSimilarity a b = 0 := by
  rw [cosineSimilarity_of_eq_length a b hlen]
  rcases h with h | h <;> rw [h] <;> simp

/-- Witness for C10: the all-zero vector against `[3, 4]`. -/
theorem cosineSimilarity_zero_magnitude_witness :
    cosineSimilarity [(0 : ℝ), 0] [(3 : ℝ), 4] = 0 := by
  refine cosineSimilarity_zero_magnitude [(0 : ℝ), 0] [(3 : ℝ), 4] rfl (Or.inl ?_)
  have : normSq [(0 : ℝ), 0] = 0 := by
    unfold normSq
    norm_num
  unfold magnitude
  rw [this, Real.sqrt_zero]

lemma findIndex?_eq_none_iff {α : Type} (p : α → Bool) (l : List α) :
    findIndex? p l = none ↔ ∀ x ∈ l, p x = false := by
  induction l with
  | nil => simp [findIndex?]
  | cons x xs ih =>
    by_cases h : p x <;> simp [findIndex?, h, ih]

lemma map_ids_upsert (l : List EmbeddingRecord) (r : EmbeddingRecord) :
    (upsertRecord l r).map (·.application_id) =
      if r.application_id ∈ l.map (·.application_id)
      then l.map (·.application_id)
      else l.map (·.application_id) ++ [r.application_id] := by
  induction l with
  | nil => simp [upsertRecord, findIndex?]
  | cons x xs ih =>
    by_cases h : x.application_id = r.application_id
    · simp [upsertRecord, findIndex?, h]
    · have hp : (x.application_id == r.application_id) = false := by
        simp [h]
      rcases hfi : findIndex? (fun y => y.application_id == r.application_id) xs
        with _ | i
      · have hnot : r.application_id ∉ xs.map (·.application_id) := by
          intro hmem
          rcases List.mem_map.mp hmem with ⟨y, hy, hid⟩
          have := (findIndex?_eq_none_iff _ xs).mp hfi y hy
          simp [hid] at this
        simp only [upsertRecord, findIndex?, hp, if_false, hfi,
          Option.map_none']
        simp [h, hnot, Ne.symm h]
      · have hmem : r.application_id ∈ xs.map (·.application_id) := by
          by_contra hnot
          have : findIndex? (fun y => y.application_id == r.application_id) xs
              = none := by
            rw [findIndex?_eq_none_iff]
            intro y hy
            simp only [beq_eq_false_iff_ne, ne_eq]
            intro hid
            exact hnot (List.mem_map.mpr ⟨y, hy, hid⟩)
          rw [this] at hfi
          exact Option.noConfusion hfi
        have ih' : (xs.set i r).map (·.application_id)
            = xs.map (·.application_id) := by
          have hih := ih
          simp only [upsertRecord, hfi, hmem, if_true] at hih
          exact hih
        simp only [upsertRecord, findIndex?, hp, if_false, hfi,
          Option.map_some']
        simp [hmem, Ne.symm h, List.map_cons, ih']

lemma mem_map_ids_upsert (l : List EmbeddingRecord) (r : EmbeddingRecord) :
    r.application_id ∈ (upsertRecord l r).map (·.application_id) := by
  rw [map_ids_upsert]
  by_cases h : r.application_id ∈ l.map (·.application_id) <;> simp [h]

lemma length_upsert_of_mem (l : List EmbeddingRecord) (r : EmbeddingRecord)
    (h : r.application_id ∈ l.map (·.application_id)) :
    (upsertRecord l r).length = l.length := by
  have hmap := map_ids_upsert l r
  rw [if_pos h] at hmap
  have h1 : ((upsertRecord l r).map (·.application_id)).length
      = (l.map (·.application_id)).length := by rw [hmap]
  simpa using h1

lemma nodup_upsert (l : List EmbeddingRecord) (r : EmbeddingRecord)
    (h : (l.map (·.application_id)).Nodup) :
    ((upsertRecord l r).map (·.application_id)).Nodup := by
  rw [map_ids_upsert]
  by_cases hmem : r.application_id ∈ l.map (·.application_id)
  · simpa [hmem] using h
  · simp only [hmem, if_false]
    rw [List.nodup_append]
    exact ⟨h, List.nodup_singleton _, by simpa using hmem⟩

/-- Characterisation of a non-skipped `indexCandidate` call: the stored
records are exactly the previous records with the new record upserted. -/
lemma indexRecords_indexCandidate (st : Option JobIndex) (jobId : ℚ)
    (jobTitle : String) (applicationId : ℚ) (candidateName resumeText : String)
    (answers : List (String × String)) (now : String)
    (embed : String → List ℝ)
    (h : ¬ (combinedText candidateName resumeText answers).length < 50) :
    indexRecords (indexCandidate st jobId jobTitle applicationId candidateName
        resumeText answers now embed)
      = upsertRecord (indexRecords st)
          (mkEmbeddingRecord applicationId candidateName
            ((combinedText candidateName resumeText answers).take 8000) now
            embed) := by
  cases st <;> simp [indexCandidate, indexRecords, h]

/-- C7: upserting the same application identifier twice leaves the record
count unchanged from the first upsert (replace, never duplicate), and
indexing preserves uniqueness of stored application identifiers, from every
starting index state.  The two calls may differ in every other argument. -/
theorem indexCandidate_upsert_spec (st : Option JobIndex)
    (jobId₁ jobId₂ : ℚ) (jobTitle₁ jobTitle₂ : String) (applicationId : ℚ)
    (name₁ name₂ resume₁ resume₂ : String)
    (answers₁ answers₂ : List (String × String)) (now₁ now₂ : String)
    (embed₁ embed₂ : String → List ℝ)
    (h₁ : 50 ≤ (combinedText name₁ resume₁ answers₁).length)
    (h₂ : 50 ≤ (combinedText name₂ resume₂ answers₂).length) :
    recordCount (indexCandidate
        (indexCandidate st jobId₁ jobTitle₁ applicationId name₁ resume₁
          answers₁ now₁ embed₁)
        jobId₂ jobTitle₂ applicationId name₂ resume₂ answers₂ now₂ embed₂)
      = recordCount (indexCandidate st jobId₁ jobTitle₁ applicationId name₁
          resume₁ answers₁ now₁ embed₁) ∧
    ((indexIds st).Nodup →
      (indexIds (indexCandidate st jobId₁ jobTitle₁ applicationId name₁
        resume₁ answers₁ now₁ embed₁)).Nodup ∧
      (indexIds (indexCandidate
        (indexCandidate st jobId₁ jobTitle₁ applicationId name₁ resume₁
          answers₁ now₁ embed₁)
        jobId₂ jobTitle₂ applicationId name₂ resume₂ answers₂ now₂
        embed₂)).Nodup) := by
  have hg₁ : ¬ (combinedText name₁ resume₁ answers₁).length < 50 := by omega
  have hg₂ : ¬ (combinedText name₂ resume₂ answers₂).length < 50 := by omega
  set r₁ := mkEmbeddingRecord applicationId name₁
    ((combinedText name₁ resume₁ answers₁).take 8000) now₁ embed₁ with hr₁
  set r₂ := mkEmbeddingRecord applicationId name₂
    ((combinedText name₂ resume₂ answers₂).take 8000) now₂ embed₂ with hr₂
  have hrec₁ := indexRecords_indexCandidate st jobId₁ jobTitle₁ applicationId
    name₁ resume₁ answers₁ now₁ embed₁ hg₁
  have hrec₂ := indexRecords_indexCandidate
    (indexCandidate st jobId₁ jobTitle₁ applicationId name₁ resume₁ answers₁
      now₁ embed₁)
    jobId₂ jobTitle₂ applicationId name₂ resume₂ answers₂ now₂ embed₂ hg₂
  rw [← hr₂] at hrec₂
  rw [hrec₁] at hrec₂
  have hid : r₂.application_id = r₁.application_id := rfl
  have hmem : r₂.application_id
      ∈ (upsertRecord (indexRecords st) r₁).map (·.application_id) := by
    rw [hid]
    exact mem_map_ids_upsert (indexRecords st) r₁
  constructor
  · simp only [recordCount, hrec₁, hrec₂]
    exact length_upsert_of_mem _ _ hmem
  · intro hnodup
    have hn₁ : ((upsertRecord (indexRecords st) r₁).map
        (·.application_id)).Nodup := by
      refine nodup_upsert _ _ ?_
      simpa [indexIds] using hnodup
    have hn₂ := nodup_upsert (upsertRecord (indexRecords st) r₁) r₂ hn₁
    constructor
    · simpa [indexIds, hrec₁] using hn₁
    · simpa [indexIds, hrec₂] using hn₂

/-- Witness for C7: indexing application `7` twice into an empty index, with
sufficiently long resume text, yields one record and unique identifiers. -/
theorem indexCandidate_upsert_spec_witness :
    recordCount (indexCandidate
        (indexCandidate none 1 "Job" 7 "Alice"
          "A resume body long enough to pass the fifty character gate."
          [] "t1" (fun _ => []))
        1 "Job" 7 "Alice"
        "A second resume body long enough to pass the gate as well."
        [] "t2" (fun _ => []))
      = recordCount (indexCandidate none 1 "Job" 7 "Alice"
          "A resume body long enough to pass the fifty character gate."
          [] "t1" (fun _ => [])) ∧
    (indexIds (indexCandidate
        (indexCandidate none 1 "Job" 7 "Alice"
          "A resume body long enough to pass the fifty character gate."
          [] "t1" (fun _ => []))
        1 "Job" 7 "Alice"
        "A second resume body long enough to pass the gate as well."
        [] "t2" (fun _ => []))).Nodup := by
  have h := indexCandidate_upsert_spec none 1 1 "Job" "Job" 7 "Alice" "Alice"
    "A resume body long enough to pass the fifty character gate."
    "A second resume body long enough to pass the gate as well."
    [] [] "t1" "t2" (fun _ => []) (fun _ => [])
    (by decide) (by decide)
  exact ⟨h.1, (h.2 (by simp [indexIds, indexRecords])).2⟩

/-- C8 counterexample: a response that is valid JSON (the oracle is `some`)
on which the service nevertheless raises — the verdict's `recommendation` is
the number `5`, so `(... as string)?.toUpperCase()` throws inside the parse
`try` block.  This refutes "fails if and only if the response is not valid
JSON after unwrapping". -/
theorem screenApplications_valid_json_failure :
    screenApplications [(1 : ℚ)]
        (some (Json.arr [Json.obj [("application_id", Json.num 1),
          ("recommendation", Json.num 5)]]))
      = Except.error "Failed to parse screening response" := by
  rfl

/-- C8 (amended): the screening service fails exactly when the response is
not valid JSON after unwrapping, or when a parsed verdict fails the dynamic
field coercions (a non-nullish, non-string recommendation or confidence, or
a null array item); when every verdict coerces, it returns the parsed
partial results together with the warned list of submitted identifiers
missing from the response — a distinct list whenever the submitted
identifiers are distinct — without failing. -/
theorem screenApplications_spec (appIds : List ℚ) (parsed : Option Json) :
    (parsed = none →
      screenApplications appIds parsed
        = Except.error "Failed to parse screening response") ∧
    (∀ j, parsed = some j → coerceAll (jsonItems j) = none →
      screenApplications appIds parsed
        = Except.error "Failed to parse screening response") ∧
    (∀ j rs, parsed = some j → coerceAll (jsonItems j) = some rs →
      screenApplications appIds parsed
        = Except.ok (rs, appIds.filter
            (fun id => !((rs.map (·.application_id)).contains (some id)))) ∧
      (appIds.Nodup →
        (appIds.filter
          (fun id => !((rs.map (·.application_id)).contains (some id)))).Nodup)) := by
  refine ⟨?_, ?_, ?_⟩
  · intro h
    subst h
    rfl
  · intro j hj hco
    subst hj
    simp [screenApplications, parseScreeningResponse, hco]
  · intro j rs hj hco
    subst hj
    constructor
    · simp [screenApplications, parseScreeningResponse, hco]
    · intro hnodup
      exact hnodup.filter _

/-- Witness for C8: ten submitted candidates, a response carrying verdicts
for the first eight — the service returns the 8 parsed results and the
missing identifiers `[9, 10]`, without failing. -/
theorem screenApplications_spec_witness :
    screenApplications [1, 2, 3, 4, 5, 6, 7, 8, 9, 10]
        (some (Json.arr ([(1 : ℚ), 2, 3, 4, 5, 6, 7, 8].map mkVerdictJson)))
      = Except.ok ([(1 : ℚ), 2, 3, 4, 5, 6, 7, 8].map mkVerdict,
          [(9 : ℚ), 10]) := by
  have h := ((screenApplications_spec [1, 2, 3, 4, 5, 6, 7, 8, 9, 10]
      (some (Json.arr ([(1 : ℚ), 2, 3, 4, 5, 6, 7, 8].map mkVerdictJson)))).2.2
      (Json.arr ([(1 : ℚ), 2, 3, 4, 5, 6, 7, 8].map mkVerdictJson))
      ([(1 : ℚ), 2, 3, 4, 5, 6, 7, 8].map mkVerdict)
      rfl (by rfl)).1
  rw [h]
  have hfilter :
      ([(1 : ℚ), 2, 3, 4, 5, 6, 7, 8, 9, 10].filter
        (fun id => !((([(1 : ℚ), 2, 3, 4, 5, 6, 7, 8].map mkVerdict).map
          (·.application_id)).contains (some id))))
      = [(9 : ℚ), 10] := by decide
  rw [hfilter]

lemma rankLe_total_ranked (a b : HighlightedCandidate)
    (ha : a.rank.isSome) (hb : b.rank.isSome) : rankLe a b ∨ rankLe b a := by
  rcases Option.isSome_iff_exists.mp ha with ⟨x, hx⟩
  rcases Option.isSome_iff_exists.mp hb with ⟨y, hy⟩
  rcases le_total x y with h | h
  · left
    simp [rankLe, rankLeB, hx, hy, h]
  · right
    simp [rankLe, rankLeB, hx, hy, h]

lemma rankLe_trans_ranked (a b c : HighlightedCandidate)
    (hb : b.rank.isSome) (hab : rankLe a b) (hbc : rankLe b c) : rankLe a c := by
  rcases Option.isSome_iff_exists.mp hb with ⟨y, hy⟩
  unfold rankLe rankLeB at *
  rcases hra : a.rank with _ | x
  · simp [hra]
  · rcases hrc : c.rank with _ | z
    · simp [hra, hrc]
    · rw [hra, hy] at hab
      rw [hy, hrc] at hbc
      simp only [decide_eq_true_eq] at hab hbc
      simp [hra, hrc, le_trans hab hbc]

lemma pairwise_orderedInsert_ranked (a : HighlightedCandidate)
    (l : List HighlightedCandidate) (ha : a.rank.isSome)
    (hl : ∀ b ∈ l, b.rank.isSome) (hp : List.Pairwise rankLe l) :
    List.Pairwise rankLe (List.orderedInsert rankLe a l) := by
  induction l with
  | nil => simp [List.orderedInsert]
  | cons b l ih =>
    by_cases hab : rankLe a b
    · rw [List.orderedInsert, if_pos hab]
      refine List.Pairwise.cons ?_ hp
      intro c hc
      rcases List.mem_cons.mp hc with rfl | hc
      · exact hab
      · exact rankLe_trans_ranked a b c (hl b (List.mem_cons_self b l)) hab
          ((List.pairwise_cons.mp hp).1 c hc)
    · rw [List.orderedInsert, if_neg hab]
      have hba : rankLe b a := by
        rcases rankLe_total_ranked a b ha (hl b (List.mem_cons_self b l))
          with h | h
        · exact absurd h hab
        · exact h
      refine List.Pairwise.cons ?_ ?_
      · intro c hc
        rcases List.mem_orderedInsert rankLe |>.mp hc with rfl | hc
        · exact hba
        · exact (List.pairwise_cons.mp hp).1 c hc
      · exact ih (fun x hx => hl x (List.mem_cons_of_mem b hx))
          (List.pairwise_cons.mp hp).2

lemma pairwise_insertionSort_ranked (l : List HighlightedCandidate)
    (hl : ∀ b ∈ l, b.rank.isSome) :
    List.Pairwise rankLe (List.insertionSort rankLe l) := by
  induction l with
  | nil => simp
  | cons a l ih =>
    rw [List.insertionSort]
    refine pairwise_orderedInsert_ranked a _ (hl a (List.mem_cons_self a l))
      ?_ (ih (fun x hx => hl x (List.mem_cons_of_mem a hx)))
    intro b hb
    exact hl b (List.mem_cons_of_mem a
      ((List.mem_insertionSort rankLe).mp hb))

/-- C1 counterexample: a parsed final ranking whose single item has rank `1`
(and score `95`) but tier string `"GOOD"` — the returned candidate's tier is
`GOOD`, not the `TOP` that a purely rank-based assignment would give
rank 1. -/
theorem rankWinners_tier_counterexample :
    (rankWinnersPost [] [Json.obj [("application_id", Json.num 1),
        ("rank", Json.num 1), ("score", Json.num 95),
        ("tier", Json.str "GOOD")]]).map (fun h => (h.rank, h.tier))
      = [(some 1, Tier.GOOD)] ∧ Tier.GOOD ≠ Tier.TOP := by
  constructor
  · rfl
  · decide

/-- C1 (amended): every returned candidate's tier is the model-returned
`tier` field of its parsed item — the exact strings `"TOP"` and `"STRONG"`
pass through and anything else (including an absent field) becomes `GOOD` —
and the tier is independent of the returned rank: items with equal `tier`
fields get equal tiers whatever their other fields. -/
theorem rankWinners_tier_spec (winners : List EnrichedWinner)
    (parsed : List Json) :
    (∀ h ∈ rankWinnersPost winners parsed,
      ∃ item ∈ parsed, h = toHighlighted winners item ∧
        h.tier = tierOfField (item.getField "tier")) ∧
    tierOfField (some (Json.str "TOP")) = Tier.TOP ∧
    tierOfField (some (Json.str "STRONG")) = Tier.STRONG ∧
    (∀ s : String, s ≠ "TOP" → s ≠ "STRONG" →
      tierOfField (some (Json.str s)) = Tier.GOOD) ∧
    (∀ f : Option Json, (∀ s : String, f ≠ some (Json.str s)) →
      tierOfField f = Tier.GOOD) ∧
    (∀ item item' : Json, item.getField "tier" = item'.getField "tier" →
      (toHighlighted winners item).tier = (toHighlighted winners item').tier) := by
  refine ⟨?_, rfl, rfl, ?_, ?_, ?_⟩
  · intro h hmem
    have hmem' : h ∈ parsed.map (toHighlighted winners) :=
      (List.mem_insertionSort rankLe).mp hmem
    rcases List.mem_map.mp hmem' with ⟨item, hitem, rfl⟩
    exact ⟨item, hitem, rfl, rfl⟩
  · intro s hs1 hs2
    simp [tierOfField, hs1, hs2]
  · intro f hf
    rcases f with _ | v
    · rfl
    · cases v with
      | str s => exact absurd rfl (hf s)
      | null => rfl
      | bool b => rfl
      | num x => rfl
      | arr xs => rfl
      | obj fs => rfl
  · intro item item' hfield
    simp [toHighlighted, hfield]

/-- Witness for C1 (amended): an unrecognised tier string coerces to `GOOD`,
and two items sharing the tier field `"STRONG"` but with ranks `1` and `26`
get the same tier. -/
theorem rankWinners_tier_spec_witness :
    tierOfField (some (Json.str "weird")) = Tier.GOOD ∧
    (toHighlighted [] (Json.obj [("rank", Json.num 1),
        ("tier", Json.str "STRONG")])).tier
      = (toHighlighted [] (Json.obj [("rank", Json.num 26),
        ("tier", Json.str "STRONG")])).tier := by
  refine ⟨(rankWinners_tier_spec [] []).2.2.2.1 "weird" (by decide) (by decide),
    (rankWinners_tier_spec [] []).2.2.2.2.2
      (Json.obj [("rank", Json.num 1), ("tier", Json.str "STRONG")])
      (Json.obj [("rank", Json.num 26), ("tier", Json.str "STRONG")])
      (by rfl)⟩

/-- C3 counterexample: a parsed final ranking with model ranks `2` and `5`.
The returned nonempty list has ranks `[2, 5]` — not contiguous from 1 — and
the score of the lower-ranked candidate (`90`) is below the score of the
higher-ranked one (`95`), so the output is not strictly ordered by score
either. -/
theorem rankWinners_rank_counterexample :
    (rankWinnersPost [] [Json.obj [("application_id", Json.num 1),
        ("rank", Json.num 2), ("score", Json.num 90),
        ("tier", Json.str "TOP")],
      Json.obj [("application_id", Json.num 2),
        ("rank", Json.num 5), ("score", Json.num 95),
        ("tier", Json.str "STRONG")]]).map (fun h => (h.rank, h.score))
      = [(some 2, some 90), (some 5, some 95)] ∧
    (rankWinnersPost [] [Json.obj [("application_id", Json.num 1),
        ("rank", Json.num 2), ("score", Json.num 90),
        ("tier", Json.str "TOP")],
      Json.obj [("application_id", Json.num 2),
        ("rank", Json.num 5), ("score", Json.num 95),
        ("tier", Json.str "STRONG")]]).map (·.rank)
      ≠ [some 1, some 2] := by
  constructor
  · rfl
  · intro h
    have hr : (rankWinnersPost [] [Json.obj [("application_id", Json.num 1),
          ("rank", Json.num 2), ("score", Json.num 90),
          ("tier", Json.str "TOP")],
        Json.obj [("application_id", Json.num 2),
          ("rank", Json.num 5), ("score", Json.num 95),
          ("tier", Json.str "STRONG")]]).map (·.rank)
        = [some 2, some 5] := rfl
    rw [hr] at h
    exact absurd h (by decide)

/-- C3 (amended): the returned candidates are a permutation of the coerced
parsed items, sorted in non-decreasing model-returned rank (whenever every
item's rank coerces to a number); ranks are whatever the model returned —
density (1..N) and score-monotonicity are not enforced. -/
theorem rankWinners_rank_spec (winners : List EnrichedWinner)
    (parsed : List Json)
    (h : ∀ item ∈ parsed, (jsNumberOfField (item.getField "rank")).isSome) :
    List.Perm (rankWinnersPost winners parsed)
      (parsed.map (toHighlighted winners)) ∧
    List.Pairwise rankLe (rankWinnersPost winners parsed) := by
  constructor
  · exact List.perm_insertionSort rankLe _
  · refine pairwise_insertionSort_ranked _ ?_
    intro b hb
    rcases List.mem_map.mp hb with ⟨item, hitem, rfl⟩
    exact h item hitem

/-- Witness for C3 (amended), on a concrete two-item ranking arriving out of
order: the output is a permutation of the coerced items and is sorted by
rank. -/
theorem rankWinners_rank_spec_witness :
    List.Perm (rankWinnersPost [] [Json.obj [("rank", Json.num 7)],
        Json.obj [("rank", Json.num 3)]])
      ([Json.obj [("rank", Json.num 7)],
        Json.obj [("rank", Json.num 3)]].map (toHighlighted [])) ∧
    List.Pairwise rankLe (rankWinnersPost [] [Json.obj [("rank", Json.num 7)],
        Json.obj [("rank", Json.num 3)]]) :=
  rankWinners_rank_spec [] [Json.obj [("rank", Json.num 7)],
    Json.obj [("rank", Json.num 3)]] (by decide)

lemma backoff_congr (a b : ℕ) (h : a = b) :
    min (1000 * 2 ^ a) 30000 = min (1000 * 2 ^ b) 30000 := by rw [h]

lemma requestFrom_success (responses : ℕ → HttpResponse) :
    ∀ (k start : ℕ), start + k ≤ maxRetries →
      (∀ i, start ≤ i → i < start + k →
        (responses i).ok = false ∧ (responses i).status = 429) →
      (responses (start + k)).ok = true →
      requestFrom responses start
        = (Except.ok (responses (start + k)).body,
            (List.range k).map (fun i => min (1000 * 2 ^ (start + i + 1)) 30000)) := by
  intro k
  induction k with
  | zero =>
    intro start _ _ hok
    rw [requestFrom]
    simp only [Nat.add_zero] at hok
    simp [hok]
  | succ k ih =>
    intro start hle hfail hok
    have h0 := hfail start (le_refl start) (by omega)
    have hlt : start < maxRetries := by
      simp only [maxRetries] at *
      omega
    rw [requestFrom]
    simp only [h0.1, h0.2, hlt, Bool.false_eq_true, if_false, and_true,
      if_true, if_pos]
    have hrec := ih (start + 1) (by omega)
      (fun i hi1 hi2 => hfail i (by omega) (by omega))
      (by rw [show start + 1 + k = start + (k + 1) by omega]; exact hok)
    rw [hrec]
    refine Prod.ext ?_ ?_
    · simp only
      rw [show start + 1 + k = start + (k + 1) by omega]
    · simp only
      rw [List.range_succ_eq_map, List.map_cons, List.map_map]
      congr 1
      refine List.map_congr_left ?_
      intro i _
      simp only [Function.comp_apply]
      exact backoff_congr _ _ (by omega)

lemma requestFrom_exhaust (responses : ℕ → HttpResponse) :
    ∀ (k start : ℕ), start + k = maxRetries →
      (∀ i, start ≤ i → i ≤ maxRetries →
        (responses i).ok = false ∧ (responses i).status = 429) →
      requestFrom responses start
        = (Except.error ("Greenhouse API error: "
              ++ toString (responses maxRetries).status ++ " - "
              ++ (responses maxRetries).body),
            (List.range k).map (fun i => min (1000 * 2 ^ (start + i + 1)) 30000)) := by
  intro k
  induction k with
  | zero =>
    intro start hs hfail
    have h5 := hfail maxRetries (by omega) (le_refl _)
    rw [requestFrom]
    have hstart : start = maxRetries := by omega
    subst hstart
    simp [h5.1, h5.2]
  | succ k ih =>
    intro start hs hfail
    have h0 := hfail start (le_refl start) (by omega)
    have hlt : start < maxRetries := by omega
    rw [requestFrom]
    simp only [h0.1, h0.2, hlt, Bool.false_eq_true, if_false, and_true,
      if_true, if_pos]
    have hrec := ih (start + 1) (by omega)
      (fun i hi1 hi2 => hfail i (by omega) hi2)
    rw [hrec]
    refine Prod.ext rfl ?_
    simp only
    rw [List.range_succ_eq_map, List.map_cons, List.map_map]
    congr 1
    refine List.map_congr_left ?_
    intro i _
    simp only [Function.comp_apply]
    exact backoff_congr _ _ (by omega)

/-- C2 counterexample: against a source that rate-limits twice then
succeeds, the delays actually slept are 2000 ms then 4000 ms — the first
backoff delay is 2 s, not the 1 s the claim states
(`Math.min(1000 * 2^(retries + 1), 30000)` with `retries = 0`). -/
theorem request_backoff_counterexample :
    (request twice429).2 = [2000, 4000] ∧
    (request twice429).2 ≠ [1000, 2000] := by
  have h : (request twice429).2 = [2000, 4000] := by
    rw [request, requestFrom]
    simp only [twice429]
    norm_num
    rw [requestFrom]
    simp only [twice429]
    norm_num
    rw [requestFrom]
    simp only [twice429, maxRetries]
    norm_num
  exact ⟨h, by rw [h]; decide⟩

/-- C2 (amended): on HTTP 429 the client retries with exponential backoff
whose first delay is 2 s, doubling each retry and capped at 30 s, for at
most 5 retries, surfacing the classified failure after exhaustion; a source
returning 429 `k` times before succeeding (`k ≤ 5`) yields the successful
body after exactly `k` retries with delays `min(1000·2^(i+1), 30000)`. -/
theorem request_backoff_spec (responses : ℕ → HttpResponse) :
    (∀ k, k ≤ 5 →
      (∀ i, i < k → (responses i).ok = false ∧ (responses i).status = 429) →
      (responses k).ok = true →
      request responses
        = (Except.ok (responses k).body,
            (List.range k).map (fun i => min (1000 * 2 ^ (i + 1)) 30000))) ∧
    ((∀ i, i ≤ 5 → (responses i).ok = false ∧ (responses i).status = 429) →
      request responses
        = (Except.error ("Greenhouse API error: "
              ++ toString (responses 5).status ++ " - " ++ (responses 5).body),
            (List.range 5).map (fun i => min (1000 * 2 ^ (i + 1)) 30000))) := by
  constructor
  · intro k hk hfail hok
    have h := requestFrom_success responses k 0 (by simpa [maxRetries] using hk)
      (fun i _ hi => hfail i (by omega)) (by simpa using hok)
    simpa [request] using h
  · intro hfail
    have h := requestFrom_exhaust responses 5 0 (by simp [maxRetries])
      (fun i _ hi => hfail i (by simpa [maxRetries] using hi))
    simpa [request, maxRetries] using h

/-- Witness for C2 (amended): 429 twice then success gives the payload
after exactly 2 retries, with delays 2 s then 4 s. -/
theorem request_backoff_spec_witness :
    request twice429 = (Except.ok "payload", [2000, 4000]) := by
  have h := (request_backoff_spec twice429).1 2 (by norm_num)
    (fun i hi => by
      interval_cases i <;> exact ⟨rfl, rfl⟩)
    rfl
  rw [h]
  rfl

lemma range_succ_flatMap {β : Type} (n : ℕ) (f : ℕ → List β) :
    (List.range (n + 1)).flatMap f
      = f 0 ++ (List.range n).flatMap (fun i => f (i + 1)) := by
  rw [List.range_succ_eq_map, List.flatMap_cons, List.flatMap_map]

lemma fetchLoop_spec {α : Type} (pages : ℕ → List α) :
    ∀ (k start fuel : ℕ), k + 1 ≤ fuel →
      (∀ i, start ≤ i → i < start + k → (pages i).length = 100) →
      (pages (start + k)).length < 100 →
      fetchLoop pages 100 fuel start
        = ((List.range (k + 1)).flatMap (fun i => pages (start + i)), k + 1) := by
  intro k
  induction k with
  | zero =>
    intro start fuel hfuel _ hlast
    rcases fuel with _ | f
    · omega
    · rw [fetchLoop]
      simp only [Nat.add_zero] at hlast
      simp [Nat.ne_of_lt hlast, List.range_succ]
  | succ k ih =>
    intro start fuel hfuel hfull hlast
    rcases fuel with _ | f
    · omega
    · rw [fetchLoop]
      have h0 : (pages start).length = 100 :=
        hfull start (le_refl start) (by omega)
      simp only [h0, if_true, if_pos]
      have hrec := ih (start + 1) f (by omega)
        (fun i hi1 hi2 => hfull i (by omega) (by omega))
        (by rw [show start + 1 + k = start + (k + 1) by omega]; exact hlast)
      rw [hrec]
      refine Prod.ext ?_ rfl
      simp only
      have hsplit : (List.range (k + 1 + 1)).flatMap (fun i => pages (start + i))
          = pages (start + 0)
            ++ (List.range (k + 1)).flatMap (fun i => pages (start + (i + 1))) := by
        rw [range_succ_flatMap]
      rw [hsplit, Nat.add_zero]
      refine congrArg (fun l => pages start ++ l) ?_
      refine congrArg _ ?_
      funext i
      congr 1
      omega

/-- C5: the helper advances page numbers one at a time and stops exactly
when a page returns fewer rows than the requested page size (100): if pages
`1..m-1` are full and page `m` is short, it issues exactly `m` page
requests and returns the concatenation of pages `1..m` in order. -/
theorem fetchAllApplicationsLightweight_spec {α : Type} (pages : ℕ → List α)
    (m fuel : ℕ) (hm : 1 ≤ m) (hfuel : m ≤ fuel)
    (hfull : ∀ i, 1 ≤ i → i < m → (pages i).length = 100)
    (hlast : (pages m).length < 100) :
    fetchAllApplicationsLightweight pages fuel
      = ((List.range m).flatMap (fun i => pages (1 + i)), m) := by
  rcases Nat.exists_eq_add_of_le hm with ⟨k, rfl⟩
  have h := fetchLoop_spec pages k 1 fuel (by omega)
    (fun i hi1 hi2 => hfull i hi1 (by omega))
    (by rw [show 1 + k = k + 1 by omega] at *; exact hlast)
  rw [fetchAllApplicationsLightweight, h, Nat.add_comm 1 k]

set_option maxRecDepth 8000 in
/-- Witness for C5: against `mockPages`, the helper issues exactly 3 page
requests and returns all 237 records in order. -/
theorem fetchAllApplicationsLightweight_spec_witness :
    fetchAllApplicationsLightweight mockPages 10 = (List.range 237, 3) := by
  have h := fetchAllApplicationsLightweight_spec mockPages 3 10
    (by norm_num) (by norm_num)
    (fun i hi1 hi2 => by interval_cases i <;> decide)
    (by decide)
  rw [h]
  refine Prod.ext ?_ rfl
  decide

lemma filterMap_raw_id (batch : List CandidateData) (items : List Json)
    (h : ∀ item ∈ items,
      (batchLookup batch (item.getField "application_id")).isSome) :
    (items.filterMap (fun item =>
        (batchLookup batch (item.getField "application_id")).map
          (fun c => ({ raw := item, candidate := c } : EnrichedWinner)))).map
      (·.raw) = items := by
  induction items with
  | nil => rfl
  | cons item items ih =>
    have hi := h item (List.mem_cons_self item items)
    rcases Option.isSome_iff_exists.mp hi with ⟨c, hc⟩
    rw [List.filterMap_cons, hc]
    simp only [Option.map_some', List.map_cons]
    rw [ih (fun x hx => h x (List.mem_cons_of_mem item hx))]

/-- C4: with 250 candidates and `top_n = 100`, phase 1 forms exactly 3
batches, of sizes 100, 100 and 50, each batch call requesting
`ceil(150 / 3) = 50` winners; and whenever every returned winner names a
candidate of its batch, phase 2 receives exactly the concatenation of the
batch responses (each enriched with its candidate). -/
theorem generateHighlights_phase1_spec (candidates : List CandidateData)
    (batchResp : ℕ → List Json) (h250 : candidates.length = 250) :
    numBatches candidates.length = 3 ∧
    (List.range (numBatches candidates.length)).map
        (fun i => (batchOf candidates i).length) = [100, 100, 50] ∧
    winnersPerBatch 100 (numBatches candidates.length) = 50 ∧
    ((∀ i, i < 3 → ∀ item ∈ batchResp i,
        (batchLookup (batchOf candidates i)
          (item.getField "application_id")).isSome) →
      (phase1Winners candidates batchResp).map (·.raw)
        = (List.range 3).flatMap batchResp) := by
  have hnb : numBatches candidates.length = 3 := by
    rw [h250]
    decide
  refine ⟨hnb, ?_, ?_, ?_⟩
  · rw [hnb]
    have hlen : ∀ i, (batchOf candidates i).length
        = min BATCH_SIZE (candidates.length - i * BATCH_SIZE) := by
      intro i
      simp [batchOf, List.length_take, List.length_drop]
    simp only [List.range_succ, List.map_append, List.map_cons, List.map_nil,
      hlen, h250]
    decide
  · rw [hnb]
    rw [winnersPerBatch]
    norm_num
  · intro h
    rw [phase1Winners, hnb, List.map_flatMap]
    refine List.flatMap_congr ?_
    intro i hi
    have hi3 : i < 3 := by
      have := List.mem_range.mp hi
      omega
    exact filterMap_raw_id _ _ (h i hi3)

set_option maxRecDepth 100000 in
/-- Witness for C4: the 250-candidate pool forms 3 batches of sizes
100/100/50 requesting 50 winners each, and with `mkBatchResp` phase 2
receives exactly the one returned winner. -/
theorem generateHighlights_phase1_spec_witness :
    numBatches (mkCandidates 250).length = 3 ∧
    winnersPerBatch 100 (numBatches (mkCandidates 250).length) = 50 ∧
    (phase1Winners (mkCandidates 250) mkBatchResp).map (·.raw)
      = [Json.obj [("application_id", Json.num 0), ("score", Json.num 80),
          ("summary", Json.str "s")]] := by
  have h250 : (mkCandidates 250).length = 250 := by
    rw [mkCandidates]
    rw [List.length_map]
    exact List.length_range 250
  have h := generateHighlights_phase1_spec (mkCandidates 250) mkBatchResp h250
  refine ⟨h.1, h.2.2.1, ?_⟩
  have hu := h.2.2.2 ?_
  · rw [hu]
    rfl
  · intro i hi3 item hitem
    interval_cases i
    · have : item = Json.obj [("application_id", Json.num 0),
          ("score", Json.num 80), ("summary", Json.str "s")] := by
        simpa [mkBatchResp] using hitem
      subst this
      decide
    · simp [mkBatchResp] at hitem
    · simp [mkBatchResp] at hitem

/-- C9: for a non-empty identifier list and a truthy rejection reason, the
route answers success (it does not throw), reporting the identifiers whose
upstream call succeeded and those whose call failed as two lists that
partition the input: every submitted identifier lands in exactly one of
them. -/
theorem bulkReject_spec (ids : List ℚ) (rid : ℚ) (rejectOk : ℚ → Bool)
    (hne : ids ≠ []) (hrid : rid ≠ 0) :
    bulkReject (some ids) (some rid) rejectOk
      = .success (ids.filter rejectOk)
          (ids.filter (fun id => !(rejectOk id))) ∧
    ∀ id ∈ ids,
      (id ∈ ids.filter rejectOk ∧ id ∉ ids.filter (fun i => !(rejectOk i))) ∨
      (id ∉ ids.filter rejectOk ∧ id ∈ ids.filter (fun i => !(rejectOk i))) := by
  constructor
  · rw [bulkReject]
    rw [if_neg (by simpa using hne), if_neg hrid]
  · intro id hid
    by_cases h : rejectOk id
    · left
      constructor
      · exact List.mem_filter.mpr ⟨hid, h⟩
      · intro hmem
        have := (List.mem_filter.mp hmem).2
        simp [h] at this
    · right
      constructor
      · intro hmem
        have := (List.mem_filter.mp hmem).2
        simp [h] at this
      · exact List.mem_filter.mpr ⟨hid, by simp [h]⟩

/-- Witness for C9: rejecting `[1, 2, 3]` where only identifier `2` fails
upstream answers `rejected = [1, 3]`, `failed = [2]`. -/
theorem bulkReject_spec_witness :
    bulkReject (some [1, 2, 3]) (some 5) (fun id => id != 2)
      = .success [1, 3] [2] := by
  have h := (bulkReject_spec [1, 2, 3] 5 (fun id => id != 2)
    (by decide) (by decide)).1
  rw [h]
  decide

end GreenhouseScreener

